import Mathlib

/-!
Shallow embedding of the unified-library view logic of
`src/src/views/UnifiedLibraryView.tsx` (repository UNIFIDECK).

The core under verification is the pair of memoised computations
`enhancedGames` (metadata enrichment, source lines 65-88) and
`filteredGames` (category / store / search filters followed by a sort,
source lines 91-127), together with the render-time error branch
(source lines 129-141).

Modelling choices:
* Store tags and compatibility ratings are runtime strings in the
  source (TypeScript string-literal unions), so they are `String` here.
* The store lookup `getStoreForApp` is a function `Nat → Option String`;
  `none` models a JavaScript `undefined`/`null` result, and the
  JavaScript truthiness test `if (store)` additionally rejects the
  empty string.
* `localeCompare` consults host locale state, so the collation enters
  the model as an explicit parameter `collLe`, where `collLe a b` means
  `a.localeCompare(b) <= 0`.  ECMAScript `Array.prototype.sort` is
  stable, and is modelled by the stable `List.mergeSort`.
* Console output is modelled explicitly as a list of emitted strings,
  so that the diagnostic side channel of the source is observable.
-/

namespace Unifideck

/-- A library entry as consumed by the view: the fields of the game
objects read in the source (`appId`, `title`, `isInstalled`,
`deckVerified`, `store`). -/
structure Game where
  appId : Nat
  title : String
  isInstalled : Bool
  deckVerified : String
  store : String
deriving Repr, DecidableEq

/-- The primary category filter, type `LibraryFilter` in the source
(source line 8). -/
inductive LibraryFilter where
  | all
  | installed
  | greatOnDeck
deriving Repr, DecidableEq

/-- The runtime string value of a `LibraryFilter` (the string-literal
union values of the source). -/
def filterName : LibraryFilter → String
  | .all => "all"
  | .installed => "installed"
  | .greatOnDeck => "great-on-deck"

/-- Whitespace as stripped by JavaScript `String.prototype.trim`,
restricted to the ASCII whitespace characters. -/
def isJsWhitespace (c : Char) : Bool :=
  c = ' ' || c = '\t' || c = '\n' || c = '\r'

/-- JavaScript `String.prototype.trim` (ASCII fragment). -/
def jsTrim (s : String) : String :=
  ⟨((s.data.dropWhile isJsWhitespace).reverse.dropWhile isJsWhitespace).reverse⟩

/-- Lower-casing of one character: JavaScript
`String.prototype.toLowerCase`, restricted to ASCII. -/
def charToLower (c : Char) : Char :=
  if 'A' ≤ c ∧ c ≤ 'Z' then Char.ofNat (c.toNat + 32) else c

/-- JavaScript `String.prototype.toLowerCase` (ASCII fragment). -/
def jsToLower (s : String) : String :=
  ⟨s.data.map charToLower⟩

/-- Containment of `needle` as a contiguous run inside the second list. -/
def listIncludes (needle : List Char) : List Char → Bool
  | [] => needle.isEmpty
  | c :: rest => needle.isPrefixOf (c :: rest) || listIncludes needle rest

/-- JavaScript `String.prototype.includes`. -/
def jsIncludes (hay needle : String) : Bool :=
  listIncludes needle.data hay.data

/-- The body of the `map` inside `enhancedGames` (source lines 66-78):
look the game up in the Unifideck metadata; a truthy result overrides
the store tag, otherwise the game passes through unchanged.  The
JavaScript truthiness test `if (store)` rejects both a missing result
and an empty-string tag. -/
def enhanceGame (getStoreForApp : Nat → Option String) (game : Game) : Game :=
  match getStoreForApp game.appId with
  | some store => if store = "" then game else { game with store := store }
  | none => game

/-- The memo `enhancedGames` (source lines 65-88): annotate every game,
in input order. -/
def enhancedGames (getStoreForApp : Nat → Option String) (games : List Game) :
    List Game :=
  games.map (enhanceGame getStoreForApp)

/-- The diagnostic console message of source line 74. -/
def noMetadataMsg (game : Game) : String :=
  "[Unifideck] No metadata for game " ++ toString game.appId ++ ": "
    ++ game.title ++ " (original store: " ++ game.store ++ ")"

/-- One step of `enhancedGames` together with the console output it
emits: the source logs line 74 exactly when the lookup was falsy and
the game's own store tag is "unknown" or empty. -/
def enhanceGameLogged (getStoreForApp : Nat → Option String) (game : Game) :
    Game × List String :=
  match getStoreForApp game.appId with
  | some store =>
      if store = "" then
        (game,
          if game.store = "unknown" || game.store = "" then [noMetadataMsg game]
          else [])
      else
        ({ game with store := store }, [])
  | none =>
      (game,
        if game.store = "unknown" || game.store = "" then [noMetadataMsg game]
        else [])

/-- One update of the store-count accumulator of source lines 81-84. -/
def bumpCount (acc : List (String × Nat)) (key : String) : List (String × Nat) :=
  match acc with
  | [] => [(key, 1)]
  | (k, n) :: rest =>
      if k = key then (k, n + 1) :: rest else (k, n) :: bumpCount rest key

/-- The store breakdown of source lines 81-84: a count per store tag,
with an empty tag counted under the key "undefined". -/
def storeCounts (games : List Game) : List (String × Nat) :=
  games.foldl
    (fun acc g => bumpCount acc (if g.store = "" then "undefined" else g.store)) []

/-- The summary console message of source line 80. -/
def enhancedSummaryMsg (enhanced : List Game) : String :=
  "[Unifideck] Enhanced " ++ toString enhanced.length ++ " games. Store breakdown:"

/-- The store-breakdown console message of source line 85. -/
def storeCountsMsg (enhanced : List Game) : String :=
  "[Unifideck] " ++ toString (storeCounts enhanced)

/-- The memo `enhancedGames` together with its console output
(source lines 65-88): the per-game diagnostics in input order, then the
two summary log lines. -/
def enhancedGamesLogged (getStoreForApp : Nat → Option String)
    (games : List Game) : List Game × List String :=
  let steps := games.map (enhanceGameLogged getStoreForApp)
  let enhanced := steps.map Prod.fst
  (enhanced,
    steps.flatMap Prod.snd ++ [enhancedSummaryMsg enhanced, storeCountsMsg enhanced])

/-- The category filter of source lines 95-108. -/
def categoryFilter (filter : LibraryFilter) (result : List Game) : List Game :=
  match filter with
  | .installed => result.filter (fun game => game.isInstalled)
  | .greatOnDeck =>
      result.filter (fun game =>
        game.deckVerified = "verified" || game.deckVerified = "playable")
  | .all => result

/-- The store filter of source lines 110-113. -/
def storeFilterStage (storeFilter : String) (result : List Game) : List Game :=
  if storeFilter ≠ "all" then result.filter (fun game => game.store = storeFilter)
  else result

/-- The search filter of source lines 115-121.  The emptiness guard
trims the query, but the matched query is the lower-cased original,
untrimmed, exactly as in the source. -/
def searchFilterStage (searchQuery : String) (result : List Game) : List Game :=
  if jsTrim searchQuery ≠ "" then
    let query := jsToLower searchQuery
    result.filter (fun game => jsIncludes (jsToLower game.title) query)
  else result

/-- The game comparison used by the sort of source line 124:
`localeCompare` on the titles, with the locale collation abstracted as
`collLe`. -/
def gameLe (collLe : String → String → Bool) (a b : Game) : Bool :=
  collLe a.title b.title

/-- The sort of source lines 123-124: ECMAScript `Array.prototype.sort`
is stable, modelled by the stable merge sort. -/
def sortStage (collLe : String → String → Bool) (result : List Game) : List Game :=
  result.mergeSort (gameLe collLe)

/-- The memo `filteredGames` (source lines 91-127): category filter,
then store filter, then search filter, then sort by title. -/
def filteredGames (collLe : String → String → Bool) (filter : LibraryFilter)
    (storeFilter : String) (searchQuery : String) (enhanced : List Game) :
    List Game :=
  sortStage collLe
    (searchFilterStage searchQuery
      (storeFilterStage storeFilter
        (categoryFilter filter enhanced)))

/-- What the component returns: the error panel of source lines 129-141
or the game grid of source line 199 holding the filtered list. -/
inductive ViewOutput where
  | errorPanel (message : String)
  | grid (games : List Game)
deriving Repr, DecidableEq

/-- The console message of source line 58. -/
def renderingMsg (filter : LibraryFilter) : String :=
  "[Unifideck] Rendering UnifiedLibraryView with filter: " ++ filterName filter

/-- The render of `UnifiedLibraryViewInner` (source lines 55-202): the
line-58 log and the `enhancedGames` / `filteredGames` memos run during
every render, and only afterwards does line 129 branch on the provider
error.  Returns the rendered output together with the console output of
the render. -/
def renderView (collLe : String → String → Bool) (error : Option String)
    (getStoreForApp : Nat → Option String) (games : List Game)
    (filter : LibraryFilter) (storeFilter : String) (searchQuery : String) :
    ViewOutput × List String :=
  let log0 := renderingMsg filter
  let enhanced := enhancedGamesLogged getStoreForApp games
  let filtered := filteredGames collLe filter storeFilter searchQuery enhanced.1
  match error with
  | some e => (.errorPanel e, log0 :: enhanced.2)
  | none => (.grid filtered, log0 :: enhanced.2)

/-- Concrete entry used in witnesses and counterexamples. -/
def hollowKnight : Game := ⟨1, "Hollow Knight", true, "verified", "steam"⟩

/-- Concrete entry used in witnesses. -/
def celeste : Game := ⟨2, "Celeste", true, "verified", "steam"⟩

/-- Concrete entry used in witnesses. -/
def hades : Game := ⟨1, "Hades", true, "verified", "unknown"⟩

/-- Concrete entry used in witnesses. -/
def rocket : Game := ⟨3, "Rocket", false, "playable", "epic"⟩

/-- Concrete entry used in counterexamples. -/
def mysteryGame : Game := ⟨7, "Mystery", false, "unrated", "steam"⟩

/-- Concrete attribution lookup whose value at key 7 is the falsy empty
string. -/
def emptyAttr : Nat → Option String := fun i => if i = 7 then some "" else none

/-- Concrete attribution lookup mapping key 1 to the store tag "epic". -/
def attr1 : Nat → Option String := fun i => if i = 1 then some "epic" else none

/-- Concrete total, transitive collation used in witnesses: comparison
by title length. -/
def demoCollLe (a b : String) : Bool := a.length ≤ b.length

theorem demoCollLe_trans :
    ∀ a b c : String, demoCollLe a b → demoCollLe b c → demoCollLe a c := by
  intro a b c h1 h2
  simp only [demoCollLe, decide_eq_true_eq] at *
  omega

theorem demoCollLe_total : ∀ a b : String, demoCollLe a b || demoCollLe b a := by
  intro a b
  simp only [demoCollLe, Bool.or_eq_true, decide_eq_true_eq]
  omega

/-! Helper lemmas about the pipeline stages, shared by several claims. -/

theorem mem_of_mem_categoryFilter {f : LibraryFilter} {l : List Game} {g : Game}
    (h : g ∈ categoryFilter f l) : g ∈ l := by
  cases f with
  | all => exact h
  | installed => exact List.mem_of_mem_filter h
  | greatOnDeck => exact List.mem_of_mem_filter h

theorem mem_of_mem_storeFilterStage {sf : String} {l : List Game} {g : Game}
    (h : g ∈ storeFilterStage sf l) : g ∈ l := by
  unfold storeFilterStage at h
  split at h
  · exact List.mem_of_mem_filter h
  · exact h

theorem mem_of_mem_searchFilterStage {q : String} {l : List Game} {g : Game}
    (h : g ∈ searchFilterStage q l) : g ∈ l := by
  unfold searchFilterStage at h
  split at h
  · exact List.mem_of_mem_filter h
  · exact h

theorem categoryFilter_eq_of_mem {f : LibraryFilter} {l m : List Game}
    (hsub : ∀ g, g ∈ m → g ∈ categoryFilter f l) :
    categoryFilter f m = m := by
  cases f with
  | all => rfl
  | installed =>
      refine List.filter_eq_self.mpr (fun g hg => ?_)
      exact (List.mem_filter.mp (hsub g hg)).2
  | greatOnDeck =>
      refine List.filter_eq_self.mpr (fun g hg => ?_)
      exact (List.mem_filter.mp (hsub g hg)).2

theorem storeFilterStage_eq_of_mem {sf : String} {l m : List Game}
    (hsub : ∀ g, g ∈ m → g ∈ storeFilterStage sf l) :
    storeFilterStage sf m = m := by
  by_cases hsf : sf = "all"
  · simp [storeFilterStage, hsf]
  · unfold storeFilterStage
    rw [if_pos hsf]
    refine List.filter_eq_self.mpr (fun g hg => ?_)
    have h2 := hsub g hg
    unfold storeFilterStage at h2
    rw [if_pos hsf] at h2
    exact (List.mem_filter.mp h2).2

theorem searchFilterStage_eq_of_mem {q : String} {l m : List Game}
    (hsub : ∀ g, g ∈ m → g ∈ searchFilterStage q l) :
    searchFilterStage q m = m := by
  by_cases hq : jsTrim q = ""
  · simp [searchFilterStage, hq]
  · unfold searchFilterStage
    rw [if_pos hq]
    refine List.filter_eq_self.mpr (fun g hg => ?_)
    have h2 := hsub g hg
    unfold searchFilterStage at h2
    rw [if_pos hq] at h2
    exact (List.mem_filter.mp h2).2

theorem mem_sortStage {collLe : String → String → Bool} {l : List Game} {g : Game} :
    g ∈ sortStage collLe l ↔ g ∈ l :=
  List.mem_mergeSort

theorem enhanceGameLogged_fst (A : Nat → Option String) (g : Game) :
    (enhanceGameLogged A g).1 = enhanceGame A g := by
  unfold enhanceGameLogged enhanceGame
  cases A g.appId with
  | none => rfl
  | some s => by_cases hs : s = "" <;> simp [hs]

/-- C1 counterexample: the claim says the search stage matches the
trimmed, lower-cased query, but the source lower-cases the query
without trimming it.  For the query " hollow" (leading space) and the
entry "Hollow Knight", the trimmed query "hollow" occurs in the
lower-cased title, yet the stage drops the entry, because the untrimmed
" hollow" does not occur. -/
theorem search_stage_trimmed_query_counterexample :
    ¬ (∀ (q : String) (l : List Game), jsTrim q ≠ "" →
        searchFilterStage q l
          = l.filter (fun g => jsIncludes (jsToLower g.title) (jsToLower (jsTrim q)))) := by
  intro h
  have hinst := h " hollow" [hollowKnight] (by decide)
  exact absurd hinst (by decide)

/-- C1 (amended): if the search string trimmed of whitespace is
non-empty, the search stage keeps exactly those entries whose
lower-cased title contains the lower-cased, UNTRIMMED search string as
a substring; if the search string is empty or whitespace-only, the
stage keeps every entry. -/
theorem search_stage_spec (q : String) (l : List Game) :
    (jsTrim q ≠ "" →
      ∀ g : Game, g ∈ searchFilterStage q l
        ↔ g ∈ l ∧ jsIncludes (jsToLower g.title) (jsToLower q) = true)
    ∧ (jsTrim q = "" → searchFilterStage q l = l) := by
  constructor
  · intro hq g
    unfold searchFilterStage
    rw [if_pos hq]
    exact List.mem_filter
  · intro hq
    simp [searchFilterStage, hq]

/-- Witness for the amended C1 at concrete inputs. -/
theorem search_stage_spec_witness :
    (hollowKnight ∈ searchFilterStage "KNIGHT" [hollowKnight, celeste]
      ↔ hollowKnight ∈ [hollowKnight, celeste]
          ∧ jsIncludes (jsToLower hollowKnight.title) (jsToLower "KNIGHT") = true)
    ∧ searchFilterStage "  " [hollowKnight] = [hollowKnight] :=
  ⟨(search_stage_spec "KNIGHT" [hollowKnight, celeste]).1 (by decide) hollowKnight,
   (search_stage_spec "  " [hollowKnight]).2 (by decide)⟩

/-- C3 counterexample: the claim says a found identifier always has its
store tag replaced by the looked-up value, but the source uses the
JavaScript truthiness test `if (store)`: a lookup that yields the empty
string is found, yet the entry passes through unchanged. -/
theorem enhance_found_override_counterexample :
    ¬ (∀ (A : Nat → Option String) (E : List Game) (i : Nat) (g : Game),
        E[i]? = some g → ∀ s, A g.appId = some s →
          (enhancedGames A E)[i]? = some { g with store := s }) := by
  intro h
  have hinst := h emptyAttr [mysteryGame] 0 mysteryGame rfl "" rfl
  exact absurd hinst (by decide)

/-- C3 (amended): an entry whose identifier is found in the attribution
lookup with a non-empty (truthy) value is returned with its store tag
replaced by that value and all other fields unchanged; an entry whose
identifier is not found, or is found with the falsy empty-string value,
is returned unchanged. -/
theorem enhance_override_spec (A : Nat → Option String) (E : List Game)
    (i : Nat) (g : Game) (hg : E[i]? = some g) :
    (∀ s, A g.appId = some s → s ≠ "" →
        (enhancedGames A E)[i]? = some { g with store := s })
    ∧ (A g.appId = none ∨ A g.appId = some "" →
        (enhancedGames A E)[i]? = some g) := by
  have hmap : (enhancedGames A E)[i]? = some (enhanceGame A g) := by
    simp [enhancedGames, List.getElem?_map, hg]
  constructor
  · intro s hs hne
    rw [hmap]
    simp [enhanceGame, hs, hne]
  · intro hcase
    rw [hmap]
    rcases hcase with h | h <;> simp [enhanceGame, h]

/-- Witness for the amended C3 at concrete inputs. -/
theorem enhance_override_spec_witness :
    (enhancedGames attr1 [hades])[0]? = some { hades with store := "epic" }
    ∧ (enhancedGames attr1 [celeste])[0]? = some celeste :=
  ⟨(enhance_override_spec attr1 [hades] 0 hades rfl).1 "epic" rfl (by decide),
   (enhance_override_spec attr1 [celeste] 0 celeste rfl).2 (Or.inl (by decide))⟩

/-- C4: the enricher is a per-entry map: the output has the same length
as the input and the i-th output entry is the annotation of the i-th
input entry, so no entry is duplicated, dropped, or reordered. -/
theorem enhancedGames_cardinality_order (A : Nat → Option String) (E : List Game) :
    (enhancedGames A E).length = E.length
    ∧ ∀ i, i < E.length →
        (enhancedGames A E)[i]? = (E[i]?).map (enhanceGame A) := by
  constructor
  · exact List.length_map E (enhanceGame A)
  · intro i _
    simp [enhancedGames, List.getElem?_map]

/-- Witness for C4 at concrete inputs. -/
theorem enhancedGames_cardinality_order_witness :
    (enhancedGames attr1 [hades, celeste]).length
        = ([hades, celeste] : List Game).length
    ∧ (enhancedGames attr1 [hades, celeste])[0]?
        = (([hades, celeste] : List Game)[0]?).map (enhanceGame attr1) :=
  ⟨(enhancedGames_cardinality_order attr1 [hades, celeste]).1,
   (enhancedGames_cardinality_order attr1 [hades, celeste]).2 0 (by decide)⟩

/-- C10: the source's truthiness test treats a falsy looked-up store
tag exactly like a missing one: an empty-string lookup result, and an
absent identifier, both pass the entry through unchanged, and only a
non-empty looked-up tag ever replaces the entry's store tag. -/
theorem enhance_falsy_passthrough (A : Nat → Option String) (g : Game) :
    (A g.appId = some "" → enhanceGame A g = g)
    ∧ (A g.appId = none → enhanceGame A g = g)
    ∧ (∀ s, A g.appId = some s → s ≠ "" →
        enhanceGame A g = { g with store := s }) := by
  refine ⟨fun h => ?_, fun h => ?_, fun s hs hne => ?_⟩
  · simp [enhanceGame, h]
  · simp [enhanceGame, h]
  · simp [enhanceGame, hs, hne]

/-- Witness for C10 at concrete inputs. -/
theorem enhance_falsy_passthrough_witness :
    enhanceGame emptyAttr mysteryGame = mysteryGame
    ∧ enhanceGame emptyAttr celeste = celeste
    ∧ enhanceGame attr1 hades = { hades with store := "epic" } :=
  ⟨(enhance_falsy_passthrough emptyAttr mysteryGame).1 (by decide),
   (enhance_falsy_passthrough emptyAttr celeste).2.1 (by decide),
   (enhance_falsy_passthrough attr1 hades).2.2 "epic" (by decide) (by decide)⟩

/-- C5: the category filter keeps every entry for category "all", keeps
exactly the installed entries for "installed", and keeps exactly the
entries rated verified or playable for "great-on-deck", preserving
relative order (each branch is a filter of the input). -/
theorem categoryFilter_spec (l : List Game) :
    categoryFilter .all l = l
    ∧ (∀ g : Game, g ∈ categoryFilter .installed l ↔ g ∈ l ∧ g.isInstalled = true)
    ∧ (∀ g : Game, g ∈ categoryFilter .greatOnDeck l
        ↔ g ∈ l ∧ (g.deckVerified = "verified" ∨ g.deckVerified = "playable")) := by
  refine ⟨rfl, fun g => ?_, fun g => ?_⟩
  · simp [categoryFilter, List.mem_filter]
  · simp [categoryFilter, List.mem_filter]

/-- C6: when the store filter is "all" the store stage keeps every
entry; otherwise it keeps exactly the entries whose (possibly
overridden) store tag equals the selected store. -/
theorem storeFilterStage_spec (sf : String) (l : List Game) :
    (sf = "all" → storeFilterStage sf l = l)
    ∧ (sf ≠ "all" →
        ∀ g : Game, g ∈ storeFilterStage sf l ↔ g ∈ l ∧ g.store = sf) := by
  constructor
  · intro h
    simp [storeFilterStage, h]
  · intro h g
    unfold storeFilterStage
    rw [if_pos h]
    simp [List.mem_filter]

/-- Witness for C6 at concrete inputs. -/
theorem storeFilterStage_spec_witness :
    storeFilterStage "all" [hollowKnight] = [hollowKnight]
    ∧ (hollowKnight ∈ storeFilterStage "steam" [hollowKnight, rocket]
        ↔ hollowKnight ∈ [hollowKnight, rocket] ∧ hollowKnight.store = "steam") :=
  ⟨(storeFilterStage_spec "all" [hollowKnight]).1 rfl,
   (storeFilterStage_spec "steam" [hollowKnight, rocket]).2 (by decide) hollowKnight⟩

/-- C2: the filter/sort pipeline is idempotent for a fixed filter state,
provided the collation is transitive and total (as the ECMAScript
consistent-comparator contract of `localeCompare` guarantees): every
entry of the first output already satisfies the three filter
predicates, and a stable sort of an already sorted list is the
identity. -/
theorem filteredGames_idempotent (collLe : String → String → Bool)
    (htrans : ∀ a b c : String, collLe a b → collLe b c → collLe a c)
    (htotal : ∀ a b : String, collLe a b || collLe b a)
    (filter : LibraryFilter) (storeFilter searchQuery : String) (E : List Game) :
    filteredGames collLe filter storeFilter searchQuery
        (filteredGames collLe filter storeFilter searchQuery E)
      = filteredGames collLe filter storeFilter searchQuery E := by
  have gtrans : ∀ a b c : Game,
      gameLe collLe a b → gameLe collLe b c → gameLe collLe a c :=
    fun a b c hab hbc => htrans _ _ _ hab hbc
  have gtotal : ∀ a b : Game, gameLe collLe a b || gameLe collLe b a :=
    fun a b => htotal _ _
  set F := searchFilterStage searchQuery
      (storeFilterStage storeFilter (categoryFilter filter E)) with hF
  have hmemF : ∀ g : Game, g ∈ sortStage collLe F → g ∈ F :=
    fun g hg => mem_sortStage.mp hg
  have h1 : categoryFilter filter (sortStage collLe F) = sortStage collLe F :=
    categoryFilter_eq_of_mem (l := E) (fun g hg =>
      mem_of_mem_storeFilterStage (mem_of_mem_searchFilterStage (hmemF g hg)))
  have h2 : storeFilterStage storeFilter (sortStage collLe F) = sortStage collLe F :=
    storeFilterStage_eq_of_mem (l := categoryFilter filter E) (fun g hg =>
      mem_of_mem_searchFilterStage (hmemF g hg))
  have h3 : searchFilterStage searchQuery (sortStage collLe F) = sortStage collLe F :=
    searchFilterStage_eq_of_mem
      (l := storeFilterStage storeFilter (categoryFilter filter E))
      (fun g hg => hmemF g hg)
  have h4 : sortStage collLe (sortStage collLe F) = sortStage collLe F :=
    List.mergeSort_of_sorted (List.sorted_mergeSort gtrans gtotal F)
  show sortStage collLe
      (searchFilterStage searchQuery
        (storeFilterStage storeFilter (categoryFilter filter (sortStage collLe F))))
    = sortStage collLe F
  rw [h1, h2, h3, h4]

/-- Witness for C2 at concrete inputs. -/
theorem filteredGames_idempotent_witness :
    filteredGames demoCollLe .all "all" " kni"
        (filteredGames demoCollLe .all "all" " kni" [hollowKnight, celeste])
      = filteredGames demoCollLe .all "all" " kni" [hollowKnight, celeste] :=
  filteredGames_idempotent demoCollLe demoCollLe_trans demoCollLe_total
    .all "all" " kni" [hollowKnight, celeste]

/-- C7: provided the collation is transitive and total, the sort stage
orders the surviving entries ascending by title under the collation,
and it is stable: for every title, the entries carrying that title
appear in the output in exactly the order in which the prior stage
produced them. -/
theorem sortStage_sorted_stable (collLe : String → String → Bool)
    (htrans : ∀ a b c : String, collLe a b → collLe b c → collLe a c)
    (htotal : ∀ a b : String, collLe a b || collLe b a) (l : List Game) :
    (sortStage collLe l).Pairwise (fun a b => gameLe collLe a b)
    ∧ ∀ t : String,
        (sortStage collLe l).filter (fun g => g.title = t)
          = l.filter (fun g => g.title = t) := by
  have gtrans : ∀ a b c : Game,
      gameLe collLe a b → gameLe collLe b c → gameLe collLe a c :=
    fun a b c hab hbc => htrans _ _ _ hab hbc
  have gtotal : ∀ a b : Game, gameLe collLe a b || gameLe collLe b a :=
    fun a b => htotal _ _
  constructor
  · exact List.sorted_mergeSort gtrans gtotal l
  · intro t
    set p : Game → Bool := fun g => g.title = t with hp
    have hmemp : ∀ g : Game, g ∈ l.filter p → g.title = t := by
      intro g hg
      have := (List.mem_filter.mp hg).2
      simpa [hp] using this
    have hpair : (l.filter p).Pairwise (fun a b => gameLe collLe a b) := by
      apply List.pairwise_of_forall_mem_list
      intro a ha b hb
      show gameLe collLe a b = true
      unfold gameLe
      rw [hmemp a ha, hmemp b hb]
      have h := htotal t t
      simpa using h
    have hsubl : List.Sublist (l.filter p) (List.mergeSort l (gameLe collLe)) :=
      List.sublist_mergeSort gtrans gtotal hpair (List.filter_sublist l)
    have hidem : (l.filter p).filter p = l.filter p :=
      List.filter_eq_self.mpr (fun a ha => (List.mem_filter.mp ha).2)
    have hsub2 : List.Sublist (l.filter p)
        ((List.mergeSort l (gameLe collLe)).filter p) := by
      have h := hsubl.filter p
      rwa [hidem] at h
    have hperm : List.Perm ((List.mergeSort l (gameLe collLe)).filter p)
        (l.filter p) :=
      (List.mergeSort_perm l (gameLe collLe)).filter p
    have hlen : (l.filter p).length
        = ((List.mergeSort l (gameLe collLe)).filter p).length :=
      hperm.symm.length_eq
    exact (List.Sublist.eq_of_length hsub2 hlen).symm

/-- Witness for C7 at concrete inputs. -/
theorem sortStage_sorted_stable_witness :
    (sortStage demoCollLe [hollowKnight, celeste]).Pairwise
        (fun a b => gameLe demoCollLe a b)
    ∧ (sortStage demoCollLe [hollowKnight, celeste]).filter
        (fun g => g.title = "Celeste")
      = [hollowKnight, celeste].filter (fun g => g.title = "Celeste") :=
  ⟨(sortStage_sorted_stable demoCollLe demoCollLe_trans demoCollLe_total
      [hollowKnight, celeste]).1,
   (sortStage_sorted_stable demoCollLe demoCollLe_trans demoCollLe_total
      [hollowKnight, celeste]).2 "Celeste"⟩

/-- C8: the core is a pure function of its inputs in this model, and
the diagnostic console output is a side channel: the enricher computed
together with its log returns exactly the sequence of the log-free
enricher, and feeding either into the filter/sort pipeline yields the
same result, so logging never alters the returned sequence or its
ordering. -/
theorem pipeline_log_noninterference (A : Nat → Option String) (E : List Game)
    (collLe : String → String → Bool) (filter : LibraryFilter)
    (storeFilter searchQuery : String) :
    (enhancedGamesLogged A E).1 = enhancedGames A E
    ∧ filteredGames collLe filter storeFilter searchQuery (enhancedGamesLogged A E).1
      = filteredGames collLe filter storeFilter searchQuery (enhancedGames A E) := by
  have h1 : (enhancedGamesLogged A E).1 = enhancedGames A E := by
    show (E.map (enhanceGameLogged A)).map Prod.fst = E.map (enhanceGame A)
    rw [List.map_map]
    exact List.map_congr_left (fun g _ => enhanceGameLogged_fst A g)
  exact ⟨h1, by rw [h1]⟩

/-- C9 counterexample: the claim says that on a provider error the core
pipeline is not invoked at all, but the memo hooks of the source run
before the error branch of line 129, so the enrichment diagnostics are
still emitted to the console during an error render.  If the pipeline
were truly not invoked, the render's console output would be just the
line-58 message. -/
theorem render_error_pipeline_counterexample :
    ¬ (∀ (collLe : String → String → Bool) (e : String)
         (A : Nat → Option String) (games : List Game) (f : LibraryFilter)
         (sf q : String),
        (renderView collLe (some e) A games f sf q).2 = [renderingMsg f]) := by
  intro h
  have hinst := h demoCollLe "boom" (fun _ => none) [] .all "all" ""
  exact absurd hinst (by decide)

/-- C9 (amended): whenever the provider reports an error the caller
renders the diagnostic panel instead of the game grid, so the
pipeline's output is never displayed; however the enrichment and
filter/sort memos still execute during the render (their console
output is identical to an error-free render of the same data). -/
theorem render_error_shows_diagnostic (collLe : String → String → Bool)
    (e : String) (A : Nat → Option String) (games : List Game)
    (f : LibraryFilter) (sf q : String) :
    (renderView collLe (some e) A games f sf q).1 = ViewOutput.errorPanel e
    ∧ (renderView collLe (some e) A games f sf q).2
      = (renderView collLe none A games f sf q).2 := by
  constructor <;> rfl

end Unifideck
